import Mathlib

/-!
Verification of the reliable, channel-multiplexed message queue in
`src/halley/net/src/message_queue.cpp`.

The embedding is shallow: the queue's state is an explicit record, the
stateful C++ methods become Lean functions from state to state, machine
integers become `Nat` with explicit `% 2^32` (the sequence counters and the
unsigned wraparound compare) and `% 256` (bytes), byte buffers become
`List Nat`, and `std::chrono` timestamps become explicit rational `now`
parameters (the source reads `steady_clock::now()`; latency and elapsed
times, `float` in the source, are modelled as rationals, which is faithful
for the order comparisons and the exact doubling the source performs).
The `std::map<int, PendingPacket>` becomes an association list with the
find / erase / subscript-inserts-default operations the source uses.

The transport (`ReliableConnection`) is external to the repository's core
and its header is not part of the sources; following §6 of the spec it is
modelled as data passed in: inbound packets are a list of byte buffers,
`sendTagged` merely returns the submitted sub-packets, and `getLatency()`
is a rational parameter.
-/

/-- Per-channel configuration, from `ChannelSettings` in the source. -/
structure ChannelSettings where
  reliable : Bool := false
  ordered : Bool := false
  keepLastSent : Bool := false
deriving DecidableEq, Repr

/-- An application message once the queue has stamped it: `channel` and
`seq` are assigned by `enqueue`; the abstract virtual payload
(`getSerializedSize` / `serializeTo`) is modelled as its byte list. -/
structure NetworkMessage where
  channel : Nat
  seq : Nat
  payload : List Nat
deriving DecidableEq, Repr

/-- One of the 32 channel slots (`MessageQueue::Channel`). -/
structure Channel where
  settings : ChannelSettings := {}
  initialized : Bool := false
  lastSeq : Nat := 0
  lastAckSeq : Nat := 0
  lastAck : Option NetworkMessage := none
deriving DecidableEq, Repr

/-- `channels[n]` in the source; out-of-range access (never reached for
configured channels, which are `< 32`) yields the default slot. -/
def channelAt (channels : List Channel) (n : Nat) : Channel :=
  channels.getD n {}

/-- One tracked outstanding packet (`MessageQueue::PendingPacket`).
Defaults are what `pendingPackets[tag]` default-constructs in the source:
no messages, zero size, non-reliable, epoch timestamp. -/
structure PendingPacketData where
  msgs : List NetworkMessage := []
  seq : Nat := 0
  size : Nat := 0
  reliable : Bool := false
  timeSent : ℚ := 0
deriving DecidableEq, Repr

/-- A sub-packet handed to the transport. Its type lives in the transport
header `reliable_connection.h`, which is not among the sources; modelled
from the spec (§6): payload bytes plus a sequence and an
application-assigned tag, both defaulting to zero when a constructor of
the source leaves them unset. -/
structure ReliableSubPacket where
  data : List Nat
  seq : Nat := 0
  tag : Nat := 0
deriving DecidableEq, Repr

/-- The whole queue state (`MessageQueue`'s fields). `nextPacketId`'s
initial value is not visible in the sources (the class header is absent);
it starts at zero, consistent with tags being small non-negative ints. -/
structure MQState where
  channels : List Channel
  pendingMsgs : List NetworkMessage := []
  pendingPackets : List (Nat × PendingPacketData) := []
  nextPacketId : Nat := 0
deriving DecidableEq, Repr

/-- The error taxonomy of spec §7.  The source raises generic `Exception`s
with message strings; each `throw` site maps to one constructor.
`messageTooLarge` appears in the spec's taxonomy but at no `throw` site of
the source — it is declared here so that statements about it can be made. -/
inductive MQError where
  | invalidArgument
  | alreadySet
  | channelNotSetUp
  | packetTooSmall
  | messageTooLarge
deriving DecidableEq, Repr

/-- `pendingPackets.find(tag)` on the association-list model. -/
def mapFind (pp : List (Nat × PendingPacketData)) (tag : Nat) :
    Option PendingPacketData :=
  match pp with
  | [] => none
  | e :: rest => if e.1 = tag then some e.2 else mapFind rest tag

/-- `pendingPackets.erase(tag)` (keys are unique, one entry goes). -/
def mapErase (pp : List (Nat × PendingPacketData)) (tag : Nat) :
    List (Nat × PendingPacketData) :=
  match pp with
  | [] => []
  | e :: rest => if e.1 = tag then rest else e :: mapErase rest tag

/-- `pendingPackets[tag]` followed by field assignments: find the entry or
default-construct it, then transform it with `f`. -/
def mapUpsert (pp : List (Nat × PendingPacketData)) (tag : Nat)
    (f : PendingPacketData → PendingPacketData) :
    List (Nat × PendingPacketData) :=
  match pp with
  | [] => [(tag, f {})]
  | e :: rest =>
    if e.1 = tag then (e.1, f e.2) :: rest else e :: mapUpsert rest tag f

/-- `MessageQueue::setChannel`. -/
def setChannel (s : MQState) (channel : Nat) (settings : ChannelSettings) :
    Except MQError MQState :=
  if channel ≥ 32 then .error .invalidArgument
  else if (channelAt s.channels channel).initialized then .error .alreadySet
  else
    let c := channelAt s.channels channel
    .ok {s with channels :=
      s.channels.set channel {c with settings := settings, initialized := true}}

/-- `MessageQueue::enqueue`: stamp the channel and the next per-channel
sequence number (`++lastSeq`, a 32-bit unsigned counter) and append to the
pending list. -/
def enqueue (s : MQState) (msg : NetworkMessage) (channelNumber : Nat) :
    Except MQError MQState :=
  if channelNumber ≥ 32 then .error .invalidArgument
  else if ¬ (channelAt s.channels channelNumber).initialized then
    .error .channelNotSetUp
  else
    let c := channelAt s.channels channelNumber
    let newSeq := (c.lastSeq + 1) % 2 ^ 32
    .ok {s with
      channels := s.channels.set channelNumber {c with lastSeq := newSeq},
      pendingMsgs := s.pendingMsgs ++
        [{msg with channel := channelNumber, seq := newSeq}]}

/-- The two bytes `memcpy` writes for `(unsigned short) msg->seq`:
the sequence truncated to 16 bits, least-significant byte first (the
target's byte order). -/
def seqBytes (seq : Nat) : List Nat :=
  [seq % 65536 % 256, seq % 65536 / 256]

/-- The length field of the wire header, as the source writes it:
two bytes `(msgSize >> 8) | 0x80` and `msgSize & 0xFF` when
`msgSize >= 128`, else the single byte `msgSize & 0x7F` (each byte value
truncated to its `unsigned char`). -/
def lenBytes (msgSize : Nat) : List Nat :=
  if msgSize ≥ 128 then [((msgSize >>> 8) ||| 0x80) % 256, msgSize &&& 0xFF]
  else [msgSize &&& 0x7F]

/-- `memcpy(&result[pos], bytes, len)` on the byte-list model. -/
def writeBytes (buf : List Nat) (pos : Nat) (bytes : List Nat) : List Nat :=
  buf.take pos ++ bytes ++ buf.drop (pos + bytes.length)

/-- One iteration of the loop body of `MessageQueue::serializeMessages`:
write the channel byte, the 2-byte sequence when the channel is ordered,
the length field, and the payload, keeping the running position. -/
def serializeOne (channels : List Channel) (acc : List Nat × Nat)
    (msg : NetworkMessage) : List Nat × Nat :=
  let msgSize := msg.payload.length
  let isOrdered := (channelAt channels msg.channel).settings.ordered
  let buf1 := writeBytes acc.1 acc.2 [msg.channel % 256]
  let pos1 := acc.2 + 1
  let buf2 := if isOrdered then writeBytes buf1 pos1 (seqBytes msg.seq) else buf1
  let pos2 := if isOrdered then pos1 + 2 else pos1
  let buf3 := writeBytes buf2 pos2 (lenBytes msgSize)
  let pos3 := pos2 + (lenBytes msgSize).length
  (writeBytes buf3 pos3 msg.payload, pos3 + msgSize)

/-- `MessageQueue::serializeMessages`: allocate `size` zero bytes and write
each message's header and payload in input order. -/
def serializeMessages (channels : List Channel) (msgs : List NetworkMessage)
    (size : Nat) : List Nat :=
  (msgs.foldl (serializeOne channels) (List.replicate size 0, 0)).1

/-- The bytes one message occupies on the wire, as a plain concatenation
(the loop body of `serializeMessages`, flattened). -/
def serializeMessage (channels : List Channel) (msg : NetworkMessage) :
    List Nat :=
  msg.channel % 256 ::
    ((if (channelAt channels msg.channel).settings.ordered then
        seqBytes msg.seq else []) ++
      lenBytes msg.payload.length ++ msg.payload)

/-- The per-message header size as `createPacket` computes it:
`1 + (isOrdered ? 2 : 0) + (msgSize >= 128 ? 2 : 1)`. -/
def msgHeaderSize (channels : List Channel) (msg : NetworkMessage) : Nat :=
  1 + (if (channelAt channels msg.channel).settings.ordered then 2 else 0) +
    (if msg.payload.length ≥ 128 then 2 else 1)

/-- Header plus payload: the space one message takes in a packet. -/
def msgTotalSize (channels : List Channel) (msg : NetworkMessage) : Nat :=
  msgHeaderSize channels msg + msg.payload.length

/-- Total wire size of a message list. -/
def sumTotal (channels : List Channel) (msgs : List NetworkMessage) : Nat :=
  (msgs.map (msgTotalSize channels)).sum

/-- The result of `createPacket`'s selection scan over the pending list:
the accepted messages (in scan order), the messages left pending, the
final running size, and the packet's reliability flag. -/
structure PackResult where
  accepted : List NetworkMessage
  remaining : List NetworkMessage
  size : Nat
  reliable : Bool
deriving DecidableEq, Repr

/-- The selection loop of `MessageQueue::createPacket`: one left-to-right
scan; a message is taken when it is the first, or its channel's
reliability matches the packet's, and it still fits the 1200-byte budget. -/
def packScan (channels : List Channel) :
    List NetworkMessage → Bool → Bool → Nat → PackResult
  | [], _, packetReliable, size =>
    ⟨[], [], size, packetReliable⟩
  | msg :: rest, first, packetReliable, size =>
    if (first = true ∨ (channelAt channels msg.channel).settings.reliable = packetReliable)
        ∧ size + msgTotalSize channels msg ≤ 1200 then
      let r := packScan channels rest false
        (channelAt channels msg.channel).settings.reliable
        (size + msgTotalSize channels msg)
      ⟨msg :: r.accepted, r.remaining, r.size, r.reliable⟩
    else
      let r := packScan channels rest first packetReliable size
      ⟨r.accepted, msg :: r.remaining, r.size, r.reliable⟩

/-- `MessageQueue::createPacket`: scan the pending list, fail when nothing
fits, else serialize the accepted messages, track them under the tag
`nextPacketId++` (`pendingPackets[tag]` default-constructs the entry, then
`msgs`, `size`, `reliable` and `timeSent` are assigned), and return the
sub-packet — whose constructor takes the data only, leaving its `seq` and
`tag` fields at their defaults. -/
def createPacket (now : ℚ) (s : MQState) :
    Except MQError (ReliableSubPacket × MQState) :=
  let r := packScan s.channels s.pendingMsgs true false 0
  if r.accepted.isEmpty then .error .packetTooSmall
  else
    let data := serializeMessages s.channels r.accepted r.size
    let tag := s.nextPacketId
    .ok (⟨data, 0, 0⟩,
      {s with pendingMsgs := r.remaining,
              pendingPackets := mapUpsert s.pendingPackets tag
                (fun pd => {pd with msgs := r.accepted, size := r.size,
                                    reliable := r.reliable, timeSent := now}),
              nextPacketId := tag + 1})

/-- `MessageQueue::checkReSend`: walk the tracked packets; when one's age
exceeds both 0.1s and twice the latency it is erased, and — when it is
reliable — its messages are re-serialized and collected for re-send (the
sub-packet constructor here takes data and the packet sequence, leaving
the tag at its default). -/
def checkReSend (channels : List Channel) (now latency : ℚ) :
    List (Nat × PendingPacketData) →
      List ReliableSubPacket × List (Nat × PendingPacketData)
  | [] => ([], [])
  | e :: rest =>
    if now - e.2.timeSent > 1 / 10 ∧ now - e.2.timeSent > latency * 2 then
      (if e.2.reliable then
        ⟨serializeMessages channels e.2.msgs e.2.size, e.2.seq, 0⟩ ::
          (checkReSend channels now latency rest).1
       else (checkReSend channels now latency rest).1,
       (checkReSend channels now latency rest).2)
    else ((checkReSend channels now latency rest).1,
      e :: (checkReSend channels now latency rest).2)

/-- The `while (!pendingMsgs.empty()) toSend.emplace_back(createPacket())`
loop of `sendAll`, with fuel for termination; `sendAll` passes the pending
list's length, which suffices because every successful `createPacket`
removes at least one pending message. -/
def packLoop (now : ℚ) : Nat → MQState →
    Except MQError (List ReliableSubPacket × MQState)
  | 0, s => if s.pendingMsgs.isEmpty then .ok ([], s) else .error .packetTooSmall
  | fuel + 1, s =>
    if s.pendingMsgs.isEmpty then .ok ([], s)
    else
      match createPacket now s with
      | .error e => .error e
      | .ok (pkt, s1) =>
        match packLoop now fuel s1 with
        | .error e => .error e
        | .ok (pkts, s2) => .ok (pkt :: pkts, s2)

/-- One step of `sendAll`'s final loop,
`pendingPackets[pending.tag].seq = pending.seq`: find-or-default-insert
the sub-packet's tag and store its sequence. -/
def registerSeq (s : MQState) (pkt : ReliableSubPacket) : MQState :=
  {s with pendingPackets :=
    mapUpsert s.pendingPackets pkt.tag (fun pd => {pd with seq := pkt.seq})}

/-- `MessageQueue::sendAll`: collect due resends, pack all pending
messages into packets, hand `toSend` to the transport (which is outside
the sources; per spec §6 `sendTagged` submits and the queue's own return
value here is the submitted batch), and record each submitted packet's
sequence under its tag. -/
def sendAll (now latency : ℚ) (s : MQState) :
    Except MQError (List ReliableSubPacket × MQState) :=
  let cr := checkReSend s.channels now latency s.pendingPackets
  let s1 := {s with pendingPackets := cr.2}
  match packLoop now s1.pendingMsgs.length s1 with
  | .error e => .error e
  | .ok (newPkts, s2) =>
    let toSend := cr.1 ++ newPkts
    .ok (toSend, toSend.foldl registerSeq s2)

/-- The unsigned 32-bit difference `a - b` the source computes in
`onPacketAcked` (`m->seq - channel.lastAckSeq` on `unsigned int`),
for `a, b < 2^32`. -/
def cdiff (a b : Nat) : Nat :=
  (a + 2 ^ 32 - b) % 2 ^ 32

/-- The per-message body of `onPacketAcked`'s loop: advance the channel's
`lastAckSeq` when `m->seq - lastAckSeq < 0x7FFFFFFF` (32-bit wraparound
compare), retaining the message when the channel keeps its last sent. -/
def ackMessage (channels : List Channel) (m : NetworkMessage) : List Channel :=
  let c := channelAt channels m.channel
  if cdiff m.seq c.lastAckSeq < 0x7FFFFFFF then
    channels.set m.channel
      {c with lastAckSeq := m.seq,
              lastAck := if c.settings.keepLastSent then some m else c.lastAck}
  else channels

/-- `MessageQueue::onPacketAcked`: look the tag up; when absent do
nothing; when found, fold the ack over the packet's messages and erase the
entry. -/
def onPacketAcked (s : MQState) (tag : Nat) : MQState :=
  match mapFind s.pendingPackets tag with
  | none => s
  | some packet =>
    {s with channels := packet.msgs.foldl ackMessage s.channels,
            pendingPackets := mapErase s.pendingPackets tag}

/-- The body of `MessageQueue::receiveAll`: `result` starts empty, the
`while (connection->receive(packet))` loop drains the transport's inbound
packets one by one — its body is only a deserialization TODO comment in
the source — and `result` is returned. -/
def receiveLoop (result : List NetworkMessage) :
    List (List Nat) → List NetworkMessage
  | [] => result
  | _ :: rest => receiveLoop result rest

/-- `MessageQueue::receiveAll`, the transport's available inbound packets
passed as data. -/
def receiveAll (inbound : List (List Nat)) : List NetworkMessage :=
  receiveLoop [] inbound

/-- Modelled from the spec: the length-field read of `decode` (§4.2) —
the repository's decoder is missing from the sources, `receiveAll`'s loop
body being only a deserialization TODO. One byte is read; when its high
bit (the extension marker) is set a second byte is read and the length is
`(first & 0x7F) << 8 | second`; a buffer ending mid-field is malformed. -/
def readLength : List Nat → Option (Nat × List Nat)
  | [] => none
  | b :: rest =>
    if b &&& 0x80 ≠ 0 then
      match rest with
      | [] => none
      | b2 :: rest2 => some (((b &&& 0x7F) <<< 8) ||| b2, rest2)
    else some (b, rest)

/-- Modelled from the spec: one `decode` pass (§4.2), fuelled for
termination (each message consumes at least its channel byte, so the
buffer length is enough fuel). Per message: the channel byte; a 2-byte
sequence, low byte first, exactly when that channel is ordered in the
registry; the length field; then `length` payload bytes — a payload
overrunning the buffer is a malformed packet (`none`). -/
def decodeFuel (channels : List Channel) :
    Nat → List Nat → Option (List NetworkMessage)
  | _, [] => some []
  | 0, _ :: _ => none
  | fuel + 1, c :: rest =>
    let seqRest : Option (Nat × List Nat) :=
      if (channelAt channels c).settings.ordered then
        match rest with
        | lo :: hi :: rest2 => some (lo + 256 * hi, rest2)
        | _ => none
      else some (0, rest)
    match seqRest with
    | none => none
    | some (seqv, rest2) =>
      match readLength rest2 with
      | none => none
      | some (len, rest3) =>
        if len ≤ rest3.length then
          match decodeFuel channels fuel (rest3.drop len) with
          | none => none
          | some msgs => some (⟨c, seqv, rest3.take len⟩ :: msgs)
        else none

/-- Modelled from the spec: `decode(buffer, channelRegistry)` (§4.2). -/
def decodeMessages (channels : List Channel) (buf : List Nat) :
    Option (List NetworkMessage) :=
  decodeFuel channels buf.length buf

/-- The wire layout for one message exactly as claim C4 words it: one
channel byte; exactly when the channel is ordered, the sequence truncated
to its low 16 bits in a fixed (low-first) byte order; one length byte with
high bit 0 when the payload length is below 128, else the two bytes
`(length >> 8) | 0x80` and `length & 0xFF`; then the payload. -/
def wireFormat (ordered : Bool) (msg : NetworkMessage) : List Nat :=
  msg.channel ::
    ((if ordered then seqBytes msg.seq else []) ++
      (if msg.payload.length < 128 then [msg.payload.length]
       else [(msg.payload.length >>> 8) ||| 0x80, msg.payload.length &&& 0xFF]) ++
      msg.payload)

theorem land_127 (n : Nat) : n &&& 127 = n % 128 := by
  have h := Nat.and_pow_two_sub_one_eq_mod n 7
  norm_num at h
  exact h

theorem land_255 (n : Nat) : n &&& 255 = n % 256 := by
  have h := Nat.and_pow_two_sub_one_eq_mod n 8
  norm_num at h
  exact h

theorem shiftR_8 (n : Nat) : n >>> 8 = n / 256 := by
  rw [Nat.shiftRight_eq_div_pow]

theorem lor_128_of_lt {q : Nat} (h : q < 128) : q ||| 128 = 128 + q := by
  have h7 : q < 2 ^ 7 := lt_of_lt_of_eq h (by norm_num)
  have h2 := Nat.mul_add_lt_is_or h7 1
  norm_num at h2
  rw [Nat.lor_comm]
  exact h2.symm

theorem shl8_lor_of_lt {q r : Nat} (h : r < 256) : (q <<< 8) ||| r = 256 * q + r := by
  have h8 : r < 2 ^ 8 := lt_of_lt_of_eq h (by norm_num)
  have h2 := Nat.mul_add_lt_is_or h8 q
  rw [Nat.shiftLeft_eq]
  norm_num at h2 ⊢
  rw [Nat.mul_comm]
  exact h2.symm

theorem lenBytes_small {n : Nat} (h : n < 128) : lenBytes n = [n] := by
  unfold lenBytes
  rw [if_neg (by omega), land_127, Nat.mod_eq_of_lt h]

theorem lenBytes_large {n : Nat} (h1 : 128 ≤ n) (h2 : n < 32768) :
    lenBytes n = [n / 256 + 128, n % 256] := by
  have hq : n / 256 < 128 := by omega
  unfold lenBytes
  rw [if_pos (by omega), land_255, shiftR_8]
  norm_num [lor_128_of_lt hq]
  omega

theorem lenBytes_length (m : NetworkMessage) :
    (lenBytes m.payload.length).length = if m.payload.length ≥ 128 then 2 else 1 := by
  unfold lenBytes
  split <;> rfl

theorem serializeMessage_length (channels : List Channel) (m : NetworkMessage) :
    (serializeMessage channels m).length = msgTotalSize channels m := by
  unfold serializeMessage msgTotalSize msgHeaderSize lenBytes seqBytes
  rcases h : (channelAt channels m.channel).settings.ordered <;>
    by_cases hl : m.payload.length ≥ 128 <;>
      simp [h, hl] <;> omega

theorem write_step (A B : List Nat) (k : Nat) (x : Nat) :
    writeBytes (A ++ List.replicate (B.length + k) x) A.length B
      = (A ++ B) ++ List.replicate k x := by
  unfold writeBytes
  rw [List.take_left, List.drop_append, List.drop_replicate]
  simp

theorem write_at (A B : List Nat) (k : Nat) (x : Nat) {n pos : Nat}
    (hpos : pos = A.length) (hn : n = B.length + k) :
    writeBytes (A ++ List.replicate n x) pos B = (A ++ B) ++ List.replicate k x := by
  subst hpos hn
  exact write_step A B k x

theorem serializeOne_concat (channels : List Channel) (A : List Nat)
    (m : NetworkMessage) (k : Nat) :
    serializeOne channels (A ++ List.replicate (msgTotalSize channels m + k) 0, A.length) m
      = (A ++ serializeMessage channels m ++ List.replicate k 0,
         A.length + msgTotalSize channels m) := by
  rcases hOrd : (channelAt channels m.channel).settings.ordered with _ | _
  all_goals
    simp only [serializeOne, serializeMessage, hOrd, if_true, if_false,
      Bool.false_eq_true, Bool.true_eq_false, ite_true, ite_false]
  -- ordered = false
  · rw [write_at A [m.channel % 256]
        ((lenBytes m.payload.length).length + (m.payload.length + k)) 0 rfl
        (by simp [msgTotalSize, msgHeaderSize, hOrd, lenBytes]; split <;> simp <;> omega)]
    rw [write_at (A ++ [m.channel % 256]) (lenBytes m.payload.length)
        (m.payload.length + k) 0 (by simp) rfl]
    rw [write_at (A ++ [m.channel % 256] ++ lenBytes m.payload.length)
        m.payload k 0 (by simp; omega) rfl]
    refine Prod.ext ?_ ?_
    · simp [List.append_assoc]
    · simp [msgTotalSize, msgHeaderSize, hOrd, lenBytes]
      split <;> simp <;> omega
  -- ordered = true
  · rw [write_at A [m.channel % 256]
        ((seqBytes m.seq).length + ((lenBytes m.payload.length).length +
          (m.payload.length + k))) 0 rfl
        (by simp [msgTotalSize, msgHeaderSize, hOrd, lenBytes, seqBytes]
            split <;> simp <;> omega)]
    rw [write_at (A ++ [m.channel % 256]) (seqBytes m.seq)
        ((lenBytes m.payload.length).length + (m.payload.length + k)) 0
        (by simp) rfl]
    rw [write_at (A ++ [m.channel % 256] ++ seqBytes m.seq) (lenBytes m.payload.length)
        (m.payload.length + k) 0 (by simp [seqBytes]) rfl]
    rw [write_at (A ++ [m.channel % 256] ++ seqBytes m.seq ++ lenBytes m.payload.length)
        m.payload k 0 (by simp [seqBytes]; omega) rfl]
    refine Prod.ext ?_ ?_
    · simp [List.append_assoc]
    · simp [msgTotalSize, msgHeaderSize, hOrd, lenBytes, seqBytes]
      split <;> simp <;> omega

theorem serializeMessages_concat (channels : List Channel) :
    ∀ (msgs : List NetworkMessage) (A : List Nat),
      msgs.foldl (serializeOne channels)
          (A ++ List.replicate (sumTotal channels msgs) 0, A.length)
        = (A ++ (msgs.map (serializeMessage channels)).flatten,
           A.length + sumTotal channels msgs)
  | [], A => by simp [sumTotal]
  | m :: rest, A => by
    have hstep := serializeOne_concat channels A m (sumTotal channels rest)
    have hsum : sumTotal channels (m :: rest)
        = msgTotalSize channels m + sumTotal channels rest := by
      simp [sumTotal]
    rw [List.foldl_cons, hsum, hstep]
    have hA : A ++ serializeMessage channels m ++ List.replicate (sumTotal channels rest) 0
        = (A ++ serializeMessage channels m) ++ List.replicate (sumTotal channels rest) 0 := by
      simp [List.append_assoc]
    have hpos : A.length + msgTotalSize channels m
        = (A ++ serializeMessage channels m).length := by
      simp [serializeMessage_length]
    rw [hA, hpos, serializeMessages_concat channels rest (A ++ serializeMessage channels m)]
    simp [serializeMessage_length, List.append_assoc]
    omega

theorem serializeMessages_eq_flatten (channels : List Channel)
    (msgs : List NetworkMessage) :
    serializeMessages channels msgs (sumTotal channels msgs)
      = (msgs.map (serializeMessage channels)).flatten := by
  unfold serializeMessages
  have h := serializeMessages_concat channels msgs []
  simp only [List.nil_append, List.length_nil] at h
  rw [h]

theorem serializeMessages_total_length (channels : List Channel)
    (msgs : List NetworkMessage) :
    (serializeMessages channels msgs (sumTotal channels msgs)).length
      = sumTotal channels msgs := by
  rw [serializeMessages_eq_flatten]
  simp [List.length_flatten, List.map_map, sumTotal, Function.comp]
  congr 1
  exact List.map_congr_left (fun m _ => serializeMessage_length channels m)

theorem serializeMessage_eq_wireFormat (channels : List Channel)
    (m : NetworkMessage) (hc : m.channel < 32) (hp : m.payload.length < 32768) :
    serializeMessage channels m
      = wireFormat (channelAt channels m.channel).settings.ordered m := by
  unfold serializeMessage wireFormat
  rw [Nat.mod_eq_of_lt (by omega : m.channel < 256)]
  by_cases hl : m.payload.length < 128
  · rw [lenBytes_small hl, if_pos hl]
  · rw [lenBytes_large (by omega) hp, if_neg hl, shiftR_8, land_255,
      lor_128_of_lt (by omega)]
    simp [Nat.add_comm]

theorem readLength_small {n : Nat} (h : n < 128) (rest : List Nat) :
    readLength (lenBytes n ++ rest) = some (n, rest) := by
  have f0 : ∀ q < 128, q &&& 128 = 0 := by decide
  rw [lenBytes_small h]
  simp [readLength, f0 n h]

theorem readLength_large {n : Nat} (h1 : 128 ≤ n) (h2 : n < 32768) (rest : List Nat) :
    readLength (lenBytes n ++ rest) = some (n, rest) := by
  have hq : n / 256 < 128 := by omega
  have f1 : ∀ q < 128, ((q + 128) &&& 128 ≠ 0) ∧ ((q + 128) &&& 127 = q) := by decide
  rw [lenBytes_large h1 h2]
  simp [readLength, (f1 _ hq).1, (f1 _ hq).2,
    shl8_lor_of_lt (Nat.mod_lt n (by omega))]
  omega

/-- What `decode` recovers of a message: the channel and payload, and the
sequence truncated to 16 bits on ordered channels (zero elsewhere). -/
def decodedView (channels : List Channel) (m : NetworkMessage) : NetworkMessage :=
  ⟨m.channel,
   if (channelAt channels m.channel).settings.ordered then m.seq % 65536 else 0,
   m.payload⟩

theorem decodeFuel_roundtrip (channels : List Channel) :
    ∀ (msgs : List NetworkMessage),
      (∀ m ∈ msgs, m.channel < 32 ∧ m.payload.length < 32768) →
      ∀ (fuel : Nat),
        ((msgs.map (serializeMessage channels)).flatten).length ≤ fuel →
        decodeFuel channels fuel ((msgs.map (serializeMessage channels)).flatten)
          = some (msgs.map (decodedView channels)) := by
  intro msgs
  induction msgs with
  | nil => intro _ fuel _; simp [decodeFuel]
  | cons m rest ih =>
    intro h fuel hf
    obtain ⟨hc, hp⟩ := h m (by simp)
    have hrest := fun x hx => h x (List.mem_cons_of_mem _ hx)
    have hshape : (((m :: rest).map (serializeMessage channels)).flatten)
        = m.channel ::
            ((if (channelAt channels m.channel).settings.ordered then
                seqBytes m.seq else []) ++
              (lenBytes m.payload.length ++
                (m.payload ++ ((rest.map (serializeMessage channels)).flatten))) ) := by
      simp [serializeMessage, Nat.mod_eq_of_lt (by omega : m.channel < 256),
        List.append_assoc]
    rw [hshape] at hf ⊢
    cases fuel with
    | zero => simp at hf
    | succ f =>
      have hfr : ((rest.map (serializeMessage channels)).flatten).length ≤ f := by
        simp only [List.length_cons, List.length_append] at hf
        omega
      have hlen : m.payload.length ≤
          (m.payload ++ ((rest.map (serializeMessage channels)).flatten)).length := by
        simp
      have hrl : readLength
          (lenBytes m.payload.length ++
            (m.payload ++ ((rest.map (serializeMessage channels)).flatten)))
          = some (m.payload.length,
              m.payload ++ ((rest.map (serializeMessage channels)).flatten)) := by
        by_cases hsmall : m.payload.length < 128
        · exact readLength_small hsmall _
        · exact readLength_large (by omega) hp _
      rcases hOrd : (channelAt channels m.channel).settings.ordered with _ | _
      · simp only [decodeFuel, hOrd, Bool.false_eq_true, if_false, ite_false,
          List.nil_append]
        rw [hrl]
        simp only [hlen, if_pos]
        rw [List.take_left, List.drop_left, ih hrest f hfr]
        simp [decodedView, hOrd]
      · simp only [decodeFuel, hOrd, if_true, ite_true, seqBytes, List.cons_append,
          List.nil_append]
        rw [hrl]
        simp only [hlen, if_pos]
        rw [List.take_left, List.drop_left, ih hrest f hfr]
        have hseq : m.seq % 65536 % 256 + 256 * (m.seq % 65536 / 256)
            = m.seq % 65536 := Nat.mod_add_div _ 256
        simp [decodedView, hOrd, hseq]

theorem packScan_perm (channels : List Channel) :
    ∀ (l : List NetworkMessage) (first packetReliable : Bool) (size : Nat),
      List.Perm ((packScan channels l first packetReliable size).accepted ++
        (packScan channels l first packetReliable size).remaining) l
  | [], _, _, _ => by simp [packScan]
  | msg :: rest, first, packetReliable, size => by
    unfold packScan
    split
    · simp only [List.cons_append]
      exact List.Perm.cons msg (packScan_perm channels rest false _ _)
    · refine List.Perm.trans ?_
        (List.Perm.cons msg (packScan_perm channels rest first packetReliable size))
      exact List.perm_middle

theorem packScan_size (channels : List Channel) :
    ∀ (l : List NetworkMessage) (first packetReliable : Bool) (size : Nat),
      (packScan channels l first packetReliable size).size
        = size + sumTotal channels (packScan channels l first packetReliable size).accepted
  | [], _, _, _ => by simp [packScan, sumTotal]
  | msg :: rest, first, packetReliable, size => by
    unfold packScan
    split
    · simp only
      rw [packScan_size channels rest false _ _]
      simp [sumTotal]
      omega
    · simp only
      rw [packScan_size channels rest first packetReliable size]

theorem packScan_budget (channels : List Channel) :
    ∀ (l : List NetworkMessage) (first packetReliable : Bool) (size : Nat),
      size ≤ 1200 →
      (packScan channels l first packetReliable size).size ≤ 1200
  | [], _, _, _, h => by simpa [packScan] using h
  | msg :: rest, first, packetReliable, size, h => by
    unfold packScan
    split
    · next hcond => exact packScan_budget channels rest false _ _ hcond.2
    · exact packScan_budget channels rest first packetReliable size h

theorem packScan_accepted_le (channels : List Channel) :
    ∀ (l : List NetworkMessage) (first packetReliable : Bool) (size : Nat)
      (m : NetworkMessage),
      m ∈ (packScan channels l first packetReliable size).accepted →
      msgTotalSize channels m ≤ 1200
  | [], _, _, _, m, h => by simp [packScan] at h
  | msg :: rest, first, packetReliable, size, m, h => by
    unfold packScan at h
    split at h
    · next hcond =>
      simp only [List.mem_cons] at h
      rcases h with rfl | h
      · omega
      · exact packScan_accepted_le channels rest false _ _ m h
    · exact packScan_accepted_le channels rest first packetReliable size m h

theorem packScan_homog_false (channels : List Channel) :
    ∀ (l : List NetworkMessage) (packetReliable : Bool) (size : Nat)
      (m : NetworkMessage),
      m ∈ (packScan channels l false packetReliable size).accepted →
      (channelAt channels m.channel).settings.reliable = packetReliable
  | [], _, _, m, h => by simp [packScan] at h
  | msg :: rest, packetReliable, size, m, h => by
    unfold packScan at h
    split at h
    · next hcond =>
      simp only [List.mem_cons] at h
      rcases hcond.1 with h1 | h1
      · exact absurd h1 (by simp)
      · rcases h with rfl | h
        · exact h1
        · rw [← h1]
          exact packScan_homog_false channels rest _ _ m h
    · exact packScan_homog_false channels rest packetReliable size m h

theorem packScan_homog (channels : List Channel) :
    ∀ (l : List NetworkMessage) (packetReliable : Bool) (size : Nat),
      ∃ b, ∀ m ∈ (packScan channels l true packetReliable size).accepted,
        (channelAt channels m.channel).settings.reliable = b
  | [], packetReliable, _ => ⟨packetReliable, by simp [packScan]⟩
  | msg :: rest, packetReliable, size => by
    unfold packScan
    split
    · refine ⟨(channelAt channels msg.channel).settings.reliable, ?_⟩
      intro m hm
      simp only [List.mem_cons] at hm
      rcases hm with rfl | hm
      · rfl
      · exact packScan_homog_false channels rest _ _ m hm
    · exact packScan_homog channels rest packetReliable size

/-- The messages currently held by the pending-packet tracker, in entry
order. -/
def trackerMsgs (s : MQState) : List NetworkMessage :=
  (s.pendingPackets.map (fun e => e.2.msgs)).flatten

theorem packScan_head_accept (channels : List Channel) (m : NetworkMessage)
    (rest : List NetworkMessage) (rel : Bool)
    (h : msgTotalSize channels m ≤ 1200) :
    (packScan channels (m :: rest) true rel 0).accepted ≠ [] := by
  unfold packScan
  rw [if_pos ⟨Or.inl rfl, by omega⟩]
  simp

theorem packScan_length_split (channels : List Channel)
    (l : List NetworkMessage) (first packetReliable : Bool) (size : Nat) :
    (packScan channels l first packetReliable size).accepted.length +
      (packScan channels l first packetReliable size).remaining.length = l.length := by
  have h := (packScan_perm channels l first packetReliable size).length_eq
  simpa using h

theorem mapUpsert_fresh (pp : List (Nat × PendingPacketData)) (tag : Nat)
    (f : PendingPacketData → PendingPacketData) (h : ∀ e ∈ pp, e.1 ≠ tag) :
    mapUpsert pp tag f = pp ++ [(tag, f {})] := by
  induction pp with
  | nil => rfl
  | cons e rest ih =>
    unfold mapUpsert
    rw [if_neg (h e (by simp))]
    rw [ih (fun x hx => h x (by simp [hx]))]
    simp

theorem mapUpsert_msgs (pp : List (Nat × PendingPacketData)) (tag : Nat)
    (f : PendingPacketData → PendingPacketData)
    (hf : ∀ pd, (f pd).msgs = pd.msgs) (hz : (f {}).msgs = []) :
    ((mapUpsert pp tag f).map (fun e => e.2.msgs)).flatten
      = (pp.map (fun e => e.2.msgs)).flatten := by
  induction pp with
  | nil => simp [mapUpsert, hz]
  | cons e rest ih =>
    unfold mapUpsert
    split
    · simp [hf]
    · simp only [List.map_cons, List.flatten_cons, ih]

theorem trackerMsgs_registerSeq (s : MQState) (pkt : ReliableSubPacket) :
    trackerMsgs (registerSeq s pkt) = trackerMsgs s := by
  unfold trackerMsgs registerSeq
  exact mapUpsert_msgs _ _ _ (fun pd => rfl) rfl

theorem registerSeq_fields (s : MQState) (pkt : ReliableSubPacket) :
    (registerSeq s pkt).pendingMsgs = s.pendingMsgs ∧
    (registerSeq s pkt).channels = s.channels := by
  constructor <;> rfl

theorem trackerMsgs_foldl_registerSeq (pkts : List ReliableSubPacket) :
    ∀ (s : MQState),
      trackerMsgs (pkts.foldl registerSeq s) = trackerMsgs s ∧
      (pkts.foldl registerSeq s).pendingMsgs = s.pendingMsgs ∧
      (pkts.foldl registerSeq s).channels = s.channels := by
  induction pkts with
  | nil => intro s; exact ⟨rfl, rfl, rfl⟩
  | cons p rest ih =>
    intro s
    rw [List.foldl_cons]
    obtain ⟨h1, h2, h3⟩ := ih (registerSeq s p)
    exact ⟨h1.trans (trackerMsgs_registerSeq s p), h2, h3⟩

theorem createPacket_spec (now : ℚ) (s : MQState)
    (hne : s.pendingMsgs ≠ [])
    (hfit : ∀ m ∈ s.pendingMsgs, msgTotalSize s.channels m ≤ 1200)
    (htags : ∀ e ∈ s.pendingPackets, e.1 < s.nextPacketId) :
    ∃ pkt s1, createPacket now s = .ok (pkt, s1)
      ∧ s1.channels = s.channels
      ∧ s1.pendingMsgs = (packScan s.channels s.pendingMsgs true false 0).remaining
      ∧ s1.pendingMsgs.length < s.pendingMsgs.length
      ∧ trackerMsgs s1 = trackerMsgs s ++
          (packScan s.channels s.pendingMsgs true false 0).accepted
      ∧ (∀ e ∈ s1.pendingPackets, e.1 < s1.nextPacketId) := by
  obtain ⟨m, rest, hl⟩ : ∃ m rest, s.pendingMsgs = m :: rest := by
    cases hpm : s.pendingMsgs with
    | nil => exact absurd hpm hne
    | cons a b => exact ⟨a, b, rfl⟩
  have hacc : (packScan s.channels s.pendingMsgs true false 0).accepted ≠ [] := by
    rw [hl]
    exact packScan_head_accept s.channels m rest false
      (hfit m (by rw [hl]; simp))
  have hup := mapUpsert_fresh s.pendingPackets s.nextPacketId
    (fun pd => {pd with msgs := (packScan s.channels s.pendingMsgs true false 0).accepted,
                        size := (packScan s.channels s.pendingMsgs true false 0).size,
                        reliable := (packScan s.channels s.pendingMsgs true false 0).reliable,
                        timeSent := now})
    (fun e he => Nat.ne_of_lt (htags e he))
  have hsplit := packScan_length_split s.channels s.pendingMsgs true false 0
  have haccne : (packScan s.channels s.pendingMsgs true false 0).accepted.length ≠ 0 := by
    simpa using hacc
  unfold createPacket
  rw [if_neg (by simpa using hacc)]
  refine ⟨_, _, rfl, rfl, rfl, by simp only []; omega, ?_, ?_⟩
  · unfold trackerMsgs
    simp only []
    rw [hup]
    simp
  · intro e he
    simp only [] at he
    rw [hup] at he
    rcases List.mem_append.mp he with h | h
    · exact Nat.lt_succ_of_lt (htags e h)
    · simp at h
      simp [h]

theorem packLoop_spec (now : ℚ) :
    ∀ (fuel : Nat) (s : MQState),
      (∀ m ∈ s.pendingMsgs, msgTotalSize s.channels m ≤ 1200) →
      (∀ e ∈ s.pendingPackets, e.1 < s.nextPacketId) →
      s.pendingMsgs.length ≤ fuel →
      ∃ pkts s2, packLoop now fuel s = .ok (pkts, s2)
        ∧ s2.pendingMsgs = []
        ∧ s2.channels = s.channels
        ∧ List.Perm (trackerMsgs s2) (trackerMsgs s ++ s.pendingMsgs) := by
  intro fuel
  induction fuel with
  | zero =>
    intro s _ _ hlen
    have hempty : s.pendingMsgs = [] := List.length_eq_zero.mp (by omega)
    refine ⟨[], s, ?_, hempty, rfl, by rw [hempty]; simp⟩
    unfold packLoop
    rw [if_pos (by simp [hempty])]
  | succ f ih =>
    intro s hfit htags hlen
    by_cases hempty : s.pendingMsgs = []
    · refine ⟨[], s, ?_, hempty, rfl, by rw [hempty]; simp⟩
      unfold packLoop
      rw [if_pos (by simp [hempty])]
    · obtain ⟨pkt, s1, hok, hch, hrem, hlt, htr, htags1⟩ :=
        createPacket_spec now s hempty hfit htags
      have hfit1 : ∀ m ∈ s1.pendingMsgs, msgTotalSize s1.channels m ≤ 1200 := by
        intro m hm
        rw [hch]
        refine hfit m ?_
        rw [hrem] at hm
        have hperm := packScan_perm s.channels s.pendingMsgs true false 0
        exact hperm.mem_iff.mp (List.mem_append.mpr (Or.inr hm))
      obtain ⟨pkts, s2, hok2, h2, h3, h4⟩ := ih s1 hfit1 htags1 (by omega)
      refine ⟨pkt :: pkts, s2, ?_, h2, h3.trans hch, ?_⟩
      · unfold packLoop
        rw [if_neg (by simp [hempty]), hok]
        dsimp only
        rw [hok2]
      · refine h4.trans ?_
        rw [htr, hrem]
        refine List.Perm.trans ?_ (List.Perm.append_left (trackerMsgs s)
          (packScan_perm s.channels s.pendingMsgs true false 0))
        simp [List.append_assoc]

theorem checkReSend_spec (channels : List Channel) (now latency : ℚ) :
    ∀ pp : List (Nat × PendingPacketData),
      (checkReSend channels now latency pp).2
        = pp.filter (fun e =>
            decide (¬ (now - e.2.timeSent > max (1 / 10) (latency * 2))))
      ∧ (checkReSend channels now latency pp).1
        = (pp.filter (fun e =>
            decide (now - e.2.timeSent > max (1 / 10) (latency * 2)) && e.2.reliable)).map
            (fun e => ⟨serializeMessages channels e.2.msgs e.2.size, e.2.seq, 0⟩) := by
  intro pp
  induction pp with
  | nil => exact ⟨rfl, rfl⟩
  | cons e rest ih =>
    by_cases hstale : now - e.2.timeSent > max (1 / 10 : ℚ) (latency * 2)
    · have hsplit : now - e.2.timeSent > 1 / 10 ∧ now - e.2.timeSent > latency * 2 :=
        max_lt_iff.mp hstale
      unfold checkReSend
      rw [if_pos hsplit]
      cases hrel : e.2.reliable
      · refine ⟨?_, ?_⟩
        · dsimp only
          rw [ih.1, List.filter_cons,
            if_neg (by simp; exact ⟨by linarith [hsplit.1], by linarith [hsplit.2]⟩)]
        · dsimp only
          rw [if_neg (by simp), ih.2, List.filter_cons, if_neg (by simp [hrel])]
      · refine ⟨?_, ?_⟩
        · dsimp only
          rw [ih.1, List.filter_cons,
            if_neg (by simp; exact ⟨by linarith [hsplit.1], by linarith [hsplit.2]⟩)]
        · dsimp only
          rw [if_pos rfl, ih.2, List.filter_cons,
            if_pos (by simp [hrel]; exact ⟨by linarith [hsplit.1], by linarith [hsplit.2]⟩)]
          simp
    · have hsplit : ¬ (now - e.2.timeSent > 1 / 10 ∧ now - e.2.timeSent > latency * 2) :=
        fun h => hstale (max_lt_iff.mpr h)
      have hle := le_max_iff.mp (not_lt.mp hstale)
      unfold checkReSend
      rw [if_neg hsplit]
      refine ⟨?_, ?_⟩
      · dsimp only
        rw [ih.1, List.filter_cons, if_pos (by
          simp
          rcases hle with h | h
          · exact Or.inl (by linarith)
          · exact Or.inr (by linarith))]
      · dsimp only
        rw [ih.2, List.filter_cons, if_neg (by
          simp
          intro h1 h2
          exfalso
          rcases hle with h | h <;> linarith)]

theorem checkReSend_keep_mem (channels : List Channel) (now latency : ℚ)
    (pp : List (Nat × PendingPacketData)) (e : Nat × PendingPacketData)
    (h : e ∈ (checkReSend channels now latency pp).2) : e ∈ pp := by
  rw [(checkReSend_spec channels now latency pp).1] at h
  exact List.mem_of_mem_filter h

theorem sendAll_spec (now latency : ℚ) (s : MQState)
    (hfit : ∀ m ∈ s.pendingMsgs, msgTotalSize s.channels m ≤ 1200)
    (htags : ∀ e ∈ s.pendingPackets, e.1 < s.nextPacketId) :
    ∃ pkts s3, sendAll now latency s = .ok (pkts, s3)
      ∧ s3.pendingMsgs = []
      ∧ List.Perm (trackerMsgs s3)
          (trackerMsgs {s with
              pendingPackets := (checkReSend s.channels now latency s.pendingPackets).2}
            ++ s.pendingMsgs) := by
  have htags1 : ∀ e ∈ (checkReSend s.channels now latency s.pendingPackets).2,
      e.1 < s.nextPacketId :=
    fun e he => htags e (checkReSend_keep_mem s.channels now latency s.pendingPackets e he)
  obtain ⟨pkts, s2, hok, hpm, hch, hperm⟩ := packLoop_spec now s.pendingMsgs.length
    {s with pendingPackets := (checkReSend s.channels now latency s.pendingPackets).2}
    hfit htags1 le_rfl
  obtain ⟨hf1, hf2, hf3⟩ := trackerMsgs_foldl_registerSeq
    ((checkReSend s.channels now latency s.pendingPackets).1 ++ pkts) s2
  have hsend : sendAll now latency s
      = .ok ((checkReSend s.channels now latency s.pendingPackets).1 ++ pkts,
          ((checkReSend s.channels now latency s.pendingPackets).1 ++ pkts).foldl
            registerSeq s2) := by
    unfold sendAll
    dsimp only
    rw [hok]
  refine ⟨_, _, hsend, ?_, ?_⟩
  · rw [hf2, hpm]
  · rw [hf1]
    exact hperm

theorem ackMessage_lastAckSeq (channels : List Channel) (m : NetworkMessage)
    (h1 : m.channel < channels.length) :
    (channelAt (ackMessage channels m) m.channel).lastAckSeq
      = if cdiff m.seq (channelAt channels m.channel).lastAckSeq < 0x7FFFFFFF
        then m.seq else (channelAt channels m.channel).lastAckSeq := by
  unfold ackMessage
  split
  · next hcond =>
    rw [if_pos hcond]
    unfold channelAt
    rw [List.getD_eq_getElem?_getD, List.getElem?_set_self (by omega)]
    rfl
  · next hcond => rw [if_neg hcond]

theorem ackMessage_monotone (channels : List Channel) (m : NetworkMessage)
    (h1 : m.channel < channels.length) :
    cdiff (channelAt (ackMessage channels m) m.channel).lastAckSeq
        (channelAt channels m.channel).lastAckSeq < 0x7FFFFFFF ∨
      (channelAt (ackMessage channels m) m.channel).lastAckSeq
        = (channelAt channels m.channel).lastAckSeq := by
  rw [ackMessage_lastAckSeq channels m h1]
  split
  · next hcond => exact Or.inl hcond
  · exact Or.inr rfl

instance {e a : Type} [DecidableEq e] [DecidableEq a] : DecidableEq (Except e a)
  | .error x, .error y => decidable_of_iff (x = y) (by simp)
  | .error _, .ok _ => isFalse (by simp)
  | .ok _, .error _ => isFalse (by simp)
  | .ok x, .ok y => decidable_of_iff (x = y) (by simp)

theorem receiveLoop_const (l : List (List Nat)) (acc : List NetworkMessage) :
    receiveLoop acc l = acc := by
  induction l with
  | nil => rfl
  | cons p rest ih => exact ih

/-- C1: FAILS on the code — `receiveAll` drains every available inbound
packet but its loop body is an unimplemented TODO, so the returned list is
always empty, never the decoded messages. -/
theorem C1_receiveAll_always_empty (inbound : List (List Nat)) :
    receiveAll inbound = [] :=
  receiveLoop_const inbound []

/-- A two-channel registry: channel 0 ordered, channel 1 unordered and
reliable; both configured. -/
def chansPair : List Channel :=
  [⟨⟨false, true, false⟩, true, 0, 0, none⟩,
   ⟨⟨true, false, false⟩, true, 0, 0, none⟩]

/-- Claim C2's preservation property, transcribed: decoding the encoded
buffer succeeds and yields one message per input message, preserving the
channel, the payload, and — when the channel is ordered — the sequence
number. -/
def roundTripPreserves (channels : List Channel) (msgs : List NetworkMessage) : Prop :=
  ∃ out,
    decodeMessages channels
        (serializeMessages channels msgs (sumTotal channels msgs)) = some out
    ∧ out.length = msgs.length
    ∧ ∀ i (hi : i < msgs.length) (ho : i < out.length),
        (out.get ⟨i, ho⟩).channel = (msgs.get ⟨i, hi⟩).channel
        ∧ (out.get ⟨i, ho⟩).payload = (msgs.get ⟨i, hi⟩).payload
        ∧ ((channelAt channels (msgs.get ⟨i, hi⟩).channel).settings.ordered = true →
            (out.get ⟨i, ho⟩).seq = (msgs.get ⟨i, hi⟩).seq)

/-- C2 (counterexample): the round trip does not preserve a sequence
number of 65536 on an ordered channel — the wire format truncates it to 16
bits, and the decoder gives back 0. -/
theorem C2_counterexample :
    ¬ (∀ msgs : List NetworkMessage,
        (∀ m ∈ msgs, m.channel < 32 ∧ m.payload.length < 32768) →
        roundTripPreserves chansPair msgs) := by
  intro h
  obtain ⟨out, hdec, hlen, hcomp⟩ := h [⟨0, 65536, [7]⟩] (by decide)
  have heval : decodeMessages chansPair
      (serializeMessages chansPair [⟨0, 65536, [7]⟩]
        (sumTotal chansPair [⟨0, 65536, [7]⟩])) = some [⟨0, 0, [7]⟩] := by decide
  rw [heval, Option.some.injEq] at hdec
  subst hdec
  have hseq := (hcomp 0 (by decide) (by decide)).2.2 (by decide)
  exact absurd hseq (by decide)

/-- C2 (amended): for messages on channels below 32 with payloads below
32768 bytes, decoding the encoded buffer succeeds and preserves each
message's channel and payload, and its sequence number modulo 2^16 when
its channel is ordered (the full sequence only when it is below 65536;
the decoder yields 0 for unordered channels). -/
theorem C2_roundtrip_amended (channels : List Channel) (msgs : List NetworkMessage)
    (h : ∀ m ∈ msgs, m.channel < 32 ∧ m.payload.length < 32768) :
    decodeMessages channels
        (serializeMessages channels msgs (sumTotal channels msgs))
      = some (msgs.map (decodedView channels)) := by
  rw [serializeMessages_eq_flatten]
  unfold decodeMessages
  exact decodeFuel_roundtrip channels msgs h _ le_rfl

theorem C2_roundtrip_amended_witness :
    (∀ m ∈ [(⟨0, 70000, [5]⟩ : NetworkMessage), ⟨1, 9, [1, 2]⟩],
        m.channel < 32 ∧ m.payload.length < 32768)
    ∧ decodeMessages chansPair
        (serializeMessages chansPair [⟨0, 70000, [5]⟩, ⟨1, 9, [1, 2]⟩]
          (sumTotal chansPair [⟨0, 70000, [5]⟩, ⟨1, 9, [1, 2]⟩]))
      = some ([⟨0, 70000, [5]⟩, ⟨1, 9, [1, 2]⟩].map (decodedView chansPair)) :=
  ⟨by decide, C2_roundtrip_amended chansPair _ (by decide)⟩

/-- C4: serializing messages on channels below 32 with payloads below
32768 into a buffer of the exact total size produces precisely the
concatenation, in input order with no padding, of each message's claimed
wire layout — channel byte, 2-byte truncated sequence exactly when
ordered, the 1- or 2-byte length field, then the payload — and the buffer
length is exactly the given size. -/
theorem C4_wire_layout (channels : List Channel) (msgs : List NetworkMessage)
    (size : Nat)
    (h : ∀ m ∈ msgs, m.channel < 32 ∧ m.payload.length < 32768)
    (hsize : size = sumTotal channels msgs) :
    serializeMessages channels msgs size
      = (msgs.map (fun m =>
          wireFormat (channelAt channels m.channel).settings.ordered m)).flatten
    ∧ (serializeMessages channels msgs size).length = size := by
  subst hsize
  constructor
  · rw [serializeMessages_eq_flatten]
    congr 1
    exact List.map_congr_left
      (fun m hm => serializeMessage_eq_wireFormat channels m (h m hm).1 (h m hm).2)
  · exact serializeMessages_total_length channels msgs

set_option maxRecDepth 4000 in
theorem C4_wire_layout_witness :
    (∀ m ∈ [(⟨0, 3, [5, 6]⟩ : NetworkMessage), ⟨1, 1, List.replicate 130 9⟩],
        m.channel < 32 ∧ m.payload.length < 32768)
    ∧ serializeMessages chansPair [⟨0, 3, [5, 6]⟩, ⟨1, 1, List.replicate 130 9⟩]
        (sumTotal chansPair [⟨0, 3, [5, 6]⟩, ⟨1, 1, List.replicate 130 9⟩])
      = ([(⟨0, 3, [5, 6]⟩ : NetworkMessage), ⟨1, 1, List.replicate 130 9⟩].map
          (fun m => wireFormat (channelAt chansPair m.channel).settings.ordered m)).flatten :=
  ⟨by decide,
   (C4_wire_layout chansPair [⟨0, 3, [5, 6]⟩, ⟨1, 1, List.replicate 130 9⟩] _
      (by decide) rfl).1⟩

/-- The newness test exactly as claim C5 words it: the unsigned 32-bit
circular difference from the current `lastAckSeq` marks the acked sequence
as newer, a difference magnitude of at least 2^31 being treated as older. -/
def specNewer (seq lastAckSeq : Nat) : Prop :=
  cdiff seq lastAckSeq < 2 ^ 31

instance (seq lastAckSeq : Nat) : Decidable (specNewer seq lastAckSeq) :=
  inferInstanceAs (Decidable (cdiff seq lastAckSeq < 2 ^ 31))

/-- C5 (counterexample): the code's threshold is 2^31 − 1, not 2^31 —
an ack at circular distance exactly 2^31 − 1 (lastAckSeq 0, seq
0x7FFFFFFF) is "newer" per the claim's test yet the code does not advance. -/
theorem C5_counterexample :
    ¬ (∀ (channels : List Channel) (m : NetworkMessage),
        m.channel < channels.length →
        (channelAt (ackMessage channels m) m.channel).lastAckSeq
          = if specNewer m.seq (channelAt channels m.channel).lastAckSeq
            then m.seq else (channelAt channels m.channel).lastAckSeq) := by
  intro h
  have hc := h [{initialized := true}] ⟨0, 0x7FFFFFFF, []⟩ (by decide)
  rw [if_pos (by decide)] at hc
  have hz : (channelAt (ackMessage [{initialized := true}] ⟨0, 0x7FFFFFFF, []⟩)
      0).lastAckSeq = 0 := by decide
  exact absurd (hz.symm.trans hc) (by decide)

/-- C5 (amended): processing an ack never moves `lastAckSeq` backward, and
it is updated to the acked sequence exactly when the unsigned 32-bit
circular difference from the current `lastAckSeq` is below 2^31 − 1 (a
difference of at least 2^31 − 1 is treated as older); in particular seq 4
acked at lastAckSeq 0xFFFFFFFE has circular distance 6 and advances. -/
theorem C5_ack_monotonic_amended (channels : List Channel) (m : NetworkMessage)
    (h1 : m.channel < channels.length) :
    ((channelAt (ackMessage channels m) m.channel).lastAckSeq
        = if cdiff m.seq (channelAt channels m.channel).lastAckSeq < 2 ^ 31 - 1
          then m.seq else (channelAt channels m.channel).lastAckSeq)
    ∧ (cdiff (channelAt (ackMessage channels m) m.channel).lastAckSeq
          (channelAt channels m.channel).lastAckSeq < 2 ^ 31 - 1
        ∨ (channelAt (ackMessage channels m) m.channel).lastAckSeq
          = (channelAt channels m.channel).lastAckSeq)
    ∧ cdiff 4 0xFFFFFFFE < 2 ^ 31 - 1 := by
  have h2 : (0x7FFFFFFF : Nat) = 2 ^ 31 - 1 := by norm_num
  refine ⟨?_, ?_, by decide⟩
  · rw [ackMessage_lastAckSeq channels m h1, h2]
  · rw [← h2]
    exact ackMessage_monotone channels m h1

theorem C5_ack_monotonic_amended_witness :
    (channelAt (ackMessage [{initialized := true, lastAckSeq := 0xFFFFFFFE}]
        ⟨0, 4, []⟩) 0).lastAckSeq = 4 := by
  have h := (C5_ack_monotonic_amended
    [{initialized := true, lastAckSeq := 0xFFFFFFFE}] ⟨0, 4, []⟩ (by decide)).1
  rw [h, if_pos (by decide)]

/-- C6: during a resend check a tracked packet is stale exactly when its
age exceeds max(0.1 s, 2 × latency); every stale packet is removed from
tracking, and exactly the stale reliable packets yield one resend payload
each, re-serialized from the same messages (hence with their original
sequence numbers), while stale non-reliable packets yield none. -/
theorem C6_resend_exactly_on_timeout (channels : List Channel)
    (now latency : ℚ) (pp : List (Nat × PendingPacketData)) :
    (checkReSend channels now latency pp).2
      = pp.filter (fun e =>
          decide (¬ (now - e.2.timeSent > max (1 / 10) (latency * 2))))
    ∧ (checkReSend channels now latency pp).1
      = (pp.filter (fun e =>
          decide (now - e.2.timeSent > max (1 / 10) (latency * 2)) && e.2.reliable)).map
          (fun e => ⟨serializeMessages channels e.2.msgs e.2.size, e.2.seq, 0⟩) :=
  checkReSend_spec channels now latency pp

/-- C7: any packet `createPacket` produces holds messages whose total
serialized size (header plus payload, summed) is at most 1200 bytes, all
of whose channels share one reliability flag; the returned sub-packet's
data is exactly that many bytes. -/
theorem C7_packet_budget_homogeneous (now : ℚ) (s : MQState)
    (pkt : ReliableSubPacket) (s1 : MQState)
    (h : createPacket now s = .ok (pkt, s1)) :
    sumTotal s.channels (packScan s.channels s.pendingMsgs true false 0).accepted ≤ 1200
    ∧ (∃ b, ∀ m ∈ (packScan s.channels s.pendingMsgs true false 0).accepted,
        (channelAt s.channels m.channel).settings.reliable = b)
    ∧ pkt.data.length
        = sumTotal s.channels (packScan s.channels s.pendingMsgs true false 0).accepted := by
  have hs := packScan_size s.channels s.pendingMsgs true false 0
  have hb := packScan_budget s.channels s.pendingMsgs true false 0 (by omega)
  refine ⟨by omega, packScan_homog s.channels s.pendingMsgs false 0, ?_⟩
  unfold createPacket at h
  dsimp only at h
  split at h
  · exact absurd h (by simp)
  · rw [Except.ok.injEq, Prod.mk.injEq] at h
    rw [← h.1]
    have hsz : (packScan s.channels s.pendingMsgs true false 0).size
        = sumTotal s.channels (packScan s.channels s.pendingMsgs true false 0).accepted := by
      omega
    rw [hsz]
    exact serializeMessages_total_length s.channels _

def c7state : MQState :=
  {channels := chansPair, pendingMsgs := [⟨0, 1, [9, 9, 9]⟩, ⟨1, 1, [8]⟩]}

def c7result := createPacket 0 c7state

def c7pkt : ReliableSubPacket :=
  match c7result with
  | .ok r => r.1
  | .error _ => ⟨[], 0, 0⟩

def c7state1 : MQState :=
  match c7result with
  | .ok r => r.2
  | .error _ => c7state

theorem C7_packet_budget_homogeneous_witness :
    createPacket 0 c7state = .ok (c7pkt, c7state1)
    ∧ sumTotal c7state.channels
        (packScan c7state.channels c7state.pendingMsgs true false 0).accepted ≤ 1200 :=
  ⟨by decide,
   (C7_packet_budget_homogeneous 0 c7state c7pkt c7state1 (by decide)).1⟩

/-- C8: when every pending message individually fits the 1200-byte budget
(and tracked tags sit below the tag counter, as they always do for states
the queue reaches), `sendAll` succeeds, leaves the pending list empty, and
the messages now held by the tracker are, as a multiset, exactly the
previously tracked surviving messages plus every previously pending
message — so each pending message went into exactly one produced packet,
none dropped, none duplicated. -/
theorem C8_no_message_loss (now latency : ℚ) (s : MQState)
    (hfit : ∀ m ∈ s.pendingMsgs, msgTotalSize s.channels m ≤ 1200)
    (htags : ∀ e ∈ s.pendingPackets, e.1 < s.nextPacketId) :
    ∃ pkts s3, sendAll now latency s = .ok (pkts, s3)
      ∧ s3.pendingMsgs = []
      ∧ List.Perm (trackerMsgs s3)
          (trackerMsgs {s with
              pendingPackets := (checkReSend s.channels now latency s.pendingPackets).2}
            ++ s.pendingMsgs) :=
  sendAll_spec now latency s hfit htags

def c8state : MQState :=
  {channels := chansPair,
   pendingMsgs := [⟨0, 1, [1, 2]⟩, ⟨1, 1, [3]⟩, ⟨0, 2, [4]⟩]}

theorem C8_no_message_loss_witness :
    (∀ m ∈ c8state.pendingMsgs, msgTotalSize c8state.channels m ≤ 1200)
    ∧ ∃ pkts s3, sendAll 0 0 c8state = .ok (pkts, s3)
      ∧ s3.pendingMsgs = []
      ∧ List.Perm (trackerMsgs s3)
          (trackerMsgs {c8state with
              pendingPackets := (checkReSend c8state.channels 0 0 c8state.pendingPackets).2}
            ++ c8state.pendingMsgs) :=
  ⟨by decide, C8_no_message_loss 0 0 c8state (by decide) (by decide)⟩

theorem msgTotalSize_big (channels : List Channel) (m : NetworkMessage)
    (hbig : m.payload.length > 32767) : msgTotalSize channels m > 1200 := by
  unfold msgTotalSize msgHeaderSize
  split <;> split <;> omega

theorem createPacket_singleton_too_big (now : ℚ) (s : MQState) (m : NetworkMessage)
    (hl : s.pendingMsgs = [m]) (hgt : msgTotalSize s.channels m > 1200) :
    createPacket now s = .error .packetTooSmall := by
  have hscan : packScan s.channels [m] true false 0 = ⟨[], [m], 0, false⟩ := by
    unfold packScan
    rw [if_neg (fun hc => absurd hc.2 (by omega))]
    rfl
  unfold createPacket
  rw [hl, hscan]
  rfl

/-- C9 (amended): a message whose payload exceeds 32767 bytes (indeed,
anything beyond the 1200-byte budget) is never accepted into a packet, so
its corrupted length field is never encoded; when it is the only pending
message the pack stage fails — but with the packer's could-not-fit error
(`PacketTooSmall`), not `MessageTooLarge`, which no code path raises. -/
theorem C9_oversized_never_packed (now : ℚ) (s : MQState) (m : NetworkMessage)
    (hbig : m.payload.length > 32767) :
    m ∉ (packScan s.channels s.pendingMsgs true false 0).accepted
    ∧ (s.pendingMsgs = [m] → createPacket now s = .error .packetTooSmall) := by
  have hgt := msgTotalSize_big s.channels m hbig
  constructor
  · intro hin
    exact absurd (packScan_accepted_le s.channels s.pendingMsgs true false 0 m hin)
      (by omega)
  · intro hl
    exact createPacket_singleton_too_big now s m hl hgt

def c9state : MQState :=
  {channels := [⟨⟨false, false, false⟩, true, 0, 0, none⟩],
   pendingMsgs := [⟨0, 0, List.replicate 32768 0⟩]}

/-- C9 (counterexample): at a 32768-byte payload the pack path fails with
the packer's `PacketTooSmall` error — not `MessageTooLarge` as the claim
states; no code path of the source raises `MessageTooLarge`. -/
theorem C9_counterexample :
    createPacket 0 c9state = .error .packetTooSmall
    ∧ createPacket 0 c9state ≠ .error .messageTooLarge := by
  have h : createPacket 0 c9state = .error .packetTooSmall :=
    createPacket_singleton_too_big 0 c9state ⟨0, 0, List.replicate 32768 0⟩ rfl
      (msgTotalSize_big _ _ (by simp only [List.length_replicate]; omega))
  refine ⟨h, ?_⟩
  rw [h]
  intro hcontra
  exact absurd (Except.error.inj hcontra) (by decide)

theorem C9_oversized_never_packed_witness :
    ((⟨0, 0, List.replicate 32768 0⟩ : NetworkMessage).payload.length > 32767)
    ∧ createPacket 0 c9state = .error .packetTooSmall := by
  refine ⟨by simp only [List.length_replicate]; omega, ?_⟩
  exact (C9_oversized_never_packed 0 c9state ⟨0, 0, List.replicate 32768 0⟩
    (by simp only [List.length_replicate]; omega)).2 rfl

/-- C10: delivering an acknowledgement for a tag absent from the tracker
(also one already evicted) is a no-op — the model is a total function, so
nothing is thrown, and the state (every channel and the tracker) is
returned unchanged. -/
theorem C10_unknown_ack_noop (s : MQState) (tag : Nat)
    (h : mapFind s.pendingPackets tag = none) :
    onPacketAcked s tag = s := by
  unfold onPacketAcked
  rw [h]

def c10state : MQState :=
  {channels := chansPair,
   pendingPackets := [(3, ⟨[⟨0, 1, [5]⟩], 0, 3, true, 0⟩)]}

theorem C10_unknown_ack_noop_witness :
    mapFind c10state.pendingPackets 7 = none ∧ onPacketAcked c10state 7 = c10state :=
  ⟨by decide, C10_unknown_ack_noop c10state 7 (by decide)⟩

/-- Channel 0 configured reliable and ordered, as in the spec's §8
scenario. -/
def c3chans : List Channel :=
  (List.replicate 32 ({} : Channel)).set 0
    {settings := ⟨true, true, false⟩, initialized := true}

def c3s0 : MQState := {channels := c3chans}

/-- The queue after enqueuing one 10-byte message on channel 0. -/
def c3s1 : MQState :=
  match enqueue c3s0 ⟨0, 0, [1, 2, 3, 4, 5, 6, 7, 8, 9, 10]⟩ 0 with
  | .ok s => s
  | .error _ => c3s0

def c3send1 := sendAll 0 0 c3s1

def c3s2 : MQState :=
  match c3send1 with
  | .ok r => r.2
  | .error _ => c3s1

def c3send2 := sendAll (1 / 5) 0 c3s2

def c3s3 : MQState :=
  match c3send2 with
  | .ok r => r.2
  | .error _ => c3s2

def c3send3 := sendAll (2 / 5) 0 c3s3

/-- The data payloads a `sendAll` run hands to the transport. -/
def sentData (r : Except MQError (List ReliableSubPacket × MQState)) :
    Option (List (List Nat)) :=
  match r with
  | .ok p => some (p.1.map (fun k => k.data))
  | .error _ => none

/-- The wire bytes of the scenario's one message: channel 0, sequence 1
(two bytes, low first), length 10, then the payload. -/
def c3data : List Nat := [0, 1, 0, 10, 1, 2, 3, 4, 5, 6, 7, 8, 9, 10]

/-- The channel table of the scenario after the enqueue bumped channel
0's sequence counter. -/
def c3chansAfter : List Channel :=
  (List.replicate 32 ({} : Channel)).set 0
    {settings := ⟨true, true, false⟩, initialized := true, lastSeq := 1}

/-- The queue state after the second `sendAll`: the resent payload was
re-registered under the sub-packet's default tag as a default-constructed
tracker entry — no messages, not reliable. -/
def c3stAfter2 : MQState :=
  {channels := c3chansAfter, pendingMsgs := [],
   pendingPackets := [(0, ⟨[], 0, 0, false, 0⟩)], nextPacketId := 1}

theorem c3send2_eval :
    c3send2 = .ok ([⟨c3data, 0, 0⟩], c3stAfter2) := by
  have hs2 : c3s2 =
      {channels := c3chansAfter,
       pendingMsgs := [],
       pendingPackets := [(0, ⟨[⟨0, 1, [1, 2, 3, 4, 5, 6, 7, 8, 9, 10]⟩], 0, 14, true, 0⟩)],
       nextPacketId := 1} := rfl
  have hcmp : ((1 : ℚ) / 5 - 0 > 1 / 10 ∧ (1 : ℚ) / 5 - 0 > 0 * 2) := by norm_num
  have hcr : checkReSend c3chansAfter (1 / 5) 0
      [(0, ⟨[⟨0, 1, [1, 2, 3, 4, 5, 6, 7, 8, 9, 10]⟩], 0, 14, true, 0⟩)]
      = ([⟨c3data, 0, 0⟩], []) := by
    unfold checkReSend
    rw [if_pos hcmp]
    rfl
  show sendAll (1 / 5) 0 c3s2 = _
  rw [hs2]
  unfold sendAll
  dsimp only
  rw [hcr]
  rfl

theorem c3send3_eval : c3send3 =
    .ok ([],
      ({channels := c3chansAfter,
        pendingMsgs := [],
        pendingPackets := [],
        nextPacketId := 1} : MQState)) := by
  have hs3 : c3s3 = c3stAfter2 := by
    unfold c3s3
    rw [c3send2_eval]
  have hcmp : ((2 : ℚ) / 5 - 0 > 1 / 10 ∧ (2 : ℚ) / 5 - 0 > 0 * 2) := by norm_num
  have hcr : checkReSend c3chansAfter (2 / 5) 0 [(0, ⟨[], 0, 0, false, 0⟩)]
      = ([], []) := by
    unfold checkReSend
    rw [if_pos hcmp]
    rfl
  show sendAll (2 / 5) 0 c3s3 = _
  rw [hs3]
  unfold sendAll c3stAfter2
  dsimp only
  rw [hcr]
  rfl

/-- C3: FAILS on the code — with latency 0 and no acks, the first
`sendAll` (t = 0) transmits the packet, the second (t = 0.2, past the
resend timeout) retransmits it once, but the third (t = 0.4, a further
timeout window later, the message still unacknowledged) retransmits
nothing: the resent payload was re-registered under its sub-packet tag as
a default-constructed entry — no messages, `reliable` false — so the next
timeout silently drops it instead of resending again. -/
theorem C3_reliable_resent_only_once :
    sentData c3send1 = some [c3data]
    ∧ sentData c3send2 = some [c3data]
    ∧ sentData c3send3 = some [] := by
  refine ⟨rfl, ?_, ?_⟩
  · rw [c3send2_eval]
    rfl
  · rw [c3send3_eval]
    rfl
